import Mathlib

/-!
Verification of `src/cpp/src/EXAMPLE/boostFile.cc` (LCIO boosting utility).

The program boosts every MCParticle four-momentum of every event of each
input `.slcio` file by a fixed Lorentz boost, writing the result to a file
named `<stem>-boosted<ext>`.

We embed the numerical kinematics over the real numbers: the C++ code works
with `double`, and the ROOT library's `Boost` class builds a symmetric 4x4
boost matrix from a velocity vector.  The definitions below transcribe, in
exact real arithmetic, the formulas ROOT uses
(`ROOT::Math::Boost::SetComponents`, `Boost::Inverse`, `Boost::operator()`,
`LorentzVector::BoostToCM`) and the fixed reference momenta of the program.

The file-name derivation (`std::filesystem::path::stem`, `extension`,
`replace_filename`) is embedded as executable functions on character lists,
and the `main` / `boostFile` control flow is embedded as a function from an
abstract file store (mapping a path to its list of events, `none` when the
LCIO library fails to open it) to an exit code plus a trace of file actions.
-/

namespace BoostFile

noncomputable section

/-- A four-momentum in the `PxPyPzE` representation used by
`ROOT::Math::PxPyPzEVector`. -/
structure LV where
  px : ℝ
  py : ℝ
  pz : ℝ
  e : ℝ

/-- A 3-velocity (beta) vector, `ROOT::Math::Boost::BetaVector`. -/
structure Vec3 where
  x : ℝ
  y : ℝ
  z : ℝ

/-- Componentwise addition of four-vectors (`LorentzVector::operator+`). -/
def vadd (a b : LV) : LV :=
  ⟨a.px + b.px, a.py + b.py, a.pz + b.pz, a.e + b.e⟩

/-- `LorentzVector::BoostToCM()`: the velocity needed to bring this
four-momentum to its own rest frame, `(-px/E, -py/E, -pz/E)`. -/
def boostToCM (v : LV) : Vec3 :=
  ⟨-v.px / v.e, -v.py / v.e, -v.pz / v.e⟩

/-- The ten independent entries of the symmetric 4x4 matrix stored by
`ROOT::Math::Boost` (`kXX .. kTT`). -/
structure BoostM where
  xx : ℝ
  xy : ℝ
  xz : ℝ
  xt : ℝ
  yy : ℝ
  yz : ℝ
  yt : ℝ
  zz : ℝ
  zt : ℝ
  tt : ℝ

/-- The identity transform (`Boost::SetIdentity`). -/
def idB : BoostM := ⟨1, 0, 0, 0, 1, 0, 0, 1, 0, 1⟩

/-- `beta²` of a velocity vector. -/
def beta2 (v : Vec3) : ℝ := v.x * v.x + v.y * v.y + v.z * v.z

/-- ROOT's `gamma = 1.0 / std::sqrt(1.0 - beta2)`. -/
def gammaOf (v : Vec3) : ℝ := 1 / Real.sqrt (1 - beta2 v)

/-- ROOT's `bgamma = gamma * gamma / (1.0 + gamma)`. -/
def bgammaOf (v : Vec3) : ℝ := gammaOf v * gammaOf v / (1 + gammaOf v)

/-- `ROOT::Math::Boost::SetComponents (bx, by, bz)`.  For `beta² ≥ 1` ROOT
raises a `GenVector_exception`; that branch is modelled as the identity and
is unreachable for the program's fixed reference momenta (beta² < 1). -/
def mkBoost (v : Vec3) : BoostM :=
  if 1 ≤ beta2 v then idB
  else
    ⟨bgammaOf v * v.x * v.x + 1, bgammaOf v * v.x * v.y, bgammaOf v * v.x * v.z,
     gammaOf v * v.x,
     bgammaOf v * v.y * v.y + 1, bgammaOf v * v.y * v.z, gammaOf v * v.y,
     bgammaOf v * v.z * v.z + 1, gammaOf v * v.z, gammaOf v⟩

/-- `Boost::Inverse()`: negate the space-time components of the matrix. -/
def inverseB (m : BoostM) : BoostM :=
  { m with xt := -m.xt, yt := -m.yt, zt := -m.zt }

/-- `Boost::operator() (LorentzVector)`: apply the symmetric matrix. -/
def applyB (m : BoostM) (v : LV) : LV :=
  ⟨m.xx * v.px + m.xy * v.py + m.xz * v.pz + m.xt * v.e,
   m.xy * v.px + m.yy * v.py + m.yz * v.pz + m.yt * v.e,
   m.xz * v.px + m.yz * v.py + m.zz * v.pz + m.zt * v.e,
   m.xt * v.px + m.yt * v.py + m.zt * v.pz + m.tt * v.e⟩

/-- The first reference beam four-momentum, `em = (0, 0, 500, 500)` GeV. -/
def em : LV := ⟨0, 0, 500, 500⟩

/-- The second reference beam four-momentum, `ep = (0, 0, -31.3, 31.3)` GeV. -/
def ep : LV := ⟨0, 0, -(313 / 10), 313 / 10⟩

/-- The transform computed once in the static initializers of `getBoosted`:
`ROOT::Math::Boost((em + ep).BoostToCM()).Inverse()`. -/
def computeBoost : BoostM :=
  inverseB (mkBoost (boostToCM (vadd em ep)))

/-- `getBoosted(lv)`: apply the cached transform to `lv`. -/
def getBoosted (lv : LV) : LV :=
  applyB computeBoost lv

/-- Invariant mass squared `E² − |p|²` of a four-momentum. -/
def mass2 (v : LV) : ℝ :=
  v.e ^ 2 - (v.px ^ 2 + v.py ^ 2 + v.pz ^ 2)

/-- The longitudinal velocity of the summed reference system,
`468.7 / 531.3`. -/
def bZ : ℝ := 4687 / 5313

/-- The Lorentz gamma factor of the cached boost. -/
def gam : ℝ := 1 / Real.sqrt (1 - bZ ^ 2)

/-- The state of the C++ function-local `static` initializer of
`getBoosted`: `none` before the first call, `some t` afterwards.  A call
with cache `none` computes `computeBoost`, stores it and uses it; a call
with cache `some t` uses the cached `t` without recomputation. -/
def getBoostedCached : Option BoostM → LV → LV × Option BoostM
  | none, lv => (applyB computeBoost lv, some computeBoost)
  | some b, lv => (applyB b lv, some b)

/-- One `MCParticle` record of an event.  The program reads `px`, `py`,
`pz`, `energy` and overwrites the momentum with `setMomentum`; every other
field is carried through untouched. -/
structure MCParticle where
  px : ℝ
  py : ℝ
  pz : ℝ
  energy : ℝ
  pdg : ℤ
  generatorStatus : ℤ
  simulatorStatus : ℤ
  mass : ℝ
  charge : ℝ
  time : ℝ
  vertexX : ℝ
  vertexY : ℝ
  vertexZ : ℝ
  parents : List ℕ
  daughters : List ℕ

/-- The four-momentum the loop builds from a particle record:
`PxPyPzEVector(p[0], p[1], p[2], E)`. -/
def lvOf (p : MCParticle) : LV := ⟨p.px, p.py, p.pz, p.energy⟩

/-- The per-particle body of the MCParticle loop: boost the four-momentum
and write back only the three momentum components (`setMomentum`). -/
def boostParticle (p : MCParticle) : MCParticle :=
  let boosted := getBoosted (lvOf p)
  { p with px := boosted.px, py := boosted.py, pz := boosted.pz }

/-- The per-event MCParticle loop of `boostFile`: every particle of the
collection is boosted in place. -/
def processEvent (ps : List MCParticle) : List MCParticle :=
  ps.map boostParticle

end

/-- The filename component of a path: the characters after the last `/`
(as in `std::filesystem::path::filename` on a POSIX path). -/
def filenameOf (l : List Char) : List Char :=
  (l.reverse.takeWhile fun c => c ≠ '/').reverse

/-- `std::filesystem::path::remove_filename`: the path up to and including
the last `/` (empty when there is no directory part). -/
def removeFilename (l : List Char) : List Char :=
  (l.reverse.dropWhile fun c => c ≠ '/').reverse

/-- `std::filesystem::path`: split a filename into `(stem, extension)`.
The extension is the substring starting at the last `.`, except that `.`,
`..` and a leading-dot name with no further dot have no extension. -/
def splitExt (f : List Char) : List Char × List Char :=
  if f = ['.'] ∨ f = ['.', '.'] then (f, [])
  else
    let tl := f.reverse.takeWhile fun c => c ≠ '.'
    let rest := f.reverse.dropWhile fun c => c ≠ '.'
    if rest.length ≤ 1 then (f, [])
    else (rest.tail.reverse, '.' :: tl.reverse)

/-- `std::filesystem::path::stem` of a filename. -/
def stemOf (f : List Char) : List Char := (splitExt f).1

/-- `std::filesystem::path::extension` of a filename. -/
def extensionOf (f : List Char) : List Char := (splitExt f).2

/-- The output path computed by `boostFile`:
`inpath.replace_filename(inpath.stem().string() + "-boosted" +
inpath.extension().string())`, i.e. drop the filename (keeping the
trailing separator) and append `stem ++ "-boosted" ++ extension`. -/
def outputPathL (l : List Char) : List Char :=
  removeFilename l ++ stemOf (filenameOf l) ++ ("-boosted".data) ++
    extensionOf (filenameOf l)

/-- String version of `outputPathL`. -/
def outputPath (s : String) : String := String.mk (outputPathL s.data)

noncomputable section

/-- One observable file operation of a run. -/
inductive FileAction where
  | openRead : String → FileAction
  | openWrite : String → FileAction
  | writeEvent : List MCParticle → FileAction

/-- Outcome of a whole process run: exit code, whether the usage message
was printed, and the file operations performed. -/
structure MainResult where
  exitCode : ℕ
  usageShown : Bool
  actions : List FileAction

/-- An abstract file store: maps a path to its event list, or `none` when
the LCIO library fails to open/read it (which the program does not catch,
so the failure aborts the run). -/
def FStore := String → Option (List (List MCParticle))

/-- `boostFile(fname)`: open the reader, open the writer on the derived
output path, and for each event boost all MCParticles and write the event.
A library failure propagates as an uncaught error. -/
def boostFileRun (fs : FStore) (fname : String) :
    Except String (List FileAction) :=
  match fs fname with
  | none => Except.error fname
  | some evts =>
      Except.ok (FileAction.openRead fname ::
        FileAction.openWrite (outputPath fname) ::
        evts.map fun e => FileAction.writeEvent (processEvent e))

/-- The `for` loop of `main`: process the input paths left to right,
aborting on the first (uncaught) library failure. -/
def runFiles (fs : FStore) : List String → Except String (List FileAction)
  | [] => Except.ok []
  | f :: rest =>
      match boostFileRun fs f with
      | Except.error err => Except.error err
      | Except.ok tr =>
          match runFiles fs rest with
          | Except.error err => Except.error err
          | Except.ok trs => Except.ok (tr ++ trs)

/-- `main(argc, argv)`: with fewer than two arguments print the usage
message and `exit(1)`; otherwise process `argv[1..]` and `return 0`. -/
def mainRun (fs : FStore) (args : List String) : Except String MainResult :=
  if args.length < 2 then Except.ok ⟨1, true, []⟩
  else
    match runFiles fs (args.drop 1) with
    | Except.error err => Except.error err
    | Except.ok tr => Except.ok ⟨0, false, tr⟩

/-- The trace `boostFile` produces on a file the store can open. -/
def okTrace (fs : FStore) (f : String) : List FileAction :=
  match fs f with
  | none => []
  | some evts =>
      FileAction.openRead f :: FileAction.openWrite (outputPath f) ::
        evts.map fun e => FileAction.writeEvent (processEvent e)

/-- Spec-side construction, following the spec's words: four-vector A =
`(px=0, py=0, pz=+500, E=500)` GeV. -/
def specBeamA : LV := ⟨0, 0, 500, 500⟩

/-- Spec-side construction: four-vector B = `(px=0, py=0, pz=−31.3,
E=31.3)` GeV. -/
def specBeamB : LV := ⟨0, 0, -(313 / 10), 313 / 10⟩

/-- Spec-side construction: the sum S = A + B. -/
def specSum : LV := vadd specBeamA specBeamB

/-- Spec-side construction: the boost vector that brings S to its own rest
frame. -/
def specBoostVec : Vec3 := boostToCM specSum

/-- Spec-side construction: the boost transform built from that vector,
then inverted. -/
def specTransform : BoostM := inverseB (mkBoost specBoostVec)

/-- A concrete particle record used to instantiate universally quantified
theorems. -/
def pSample : MCParticle :=
  ⟨1, 2, 3, 4, 11, 1, 0, 0, -1, 0, 0, 0, 0, [], []⟩

/-- A concrete file store on which every path opens and holds no events. -/
def fsEmpty : FStore := fun _ => some []

end

end BoostFile

namespace BoostFile

lemma bZ_sq_lt_one : bZ ^ 2 < 1 := by
  rw [bZ]
  norm_num

lemma sqrt_pos' : 0 < Real.sqrt (1 - bZ ^ 2) :=
  Real.sqrt_pos.mpr (by linarith [bZ_sq_lt_one])

lemma gam_pos : 0 < gam := by
  rw [gam]
  exact div_pos one_pos sqrt_pos'

lemma gam_sq : gam ^ 2 * (1 - bZ ^ 2) = 1 := by
  have h : Real.sqrt (1 - bZ ^ 2) ^ 2 = 1 - bZ ^ 2 :=
    Real.sq_sqrt (by linarith [bZ_sq_lt_one])
  have hne : Real.sqrt (1 - bZ ^ 2) ≠ 0 := ne_of_gt sqrt_pos'
  rw [gam]
  field_simp
  linarith [h]

lemma gam_ge_one : 1 ≤ gam := by
  have h1 : Real.sqrt (1 - bZ ^ 2) ≤ 1 := by
    calc Real.sqrt (1 - bZ ^ 2) ≤ Real.sqrt 1 :=
          Real.sqrt_le_sqrt (by nlinarith [sq_nonneg bZ])
      _ = 1 := Real.sqrt_one
  rw [gam, le_div_iff₀ sqrt_pos']
  simpa using h1

/-- The bgamma identity: `γ²β²/(1+γ) + 1 = γ`. -/
lemma bgamma_identity : gam * gam / (1 + gam) * bZ ^ 2 + 1 = gam := by
  have h1 : 0 < 1 + gam := by linarith [gam_pos]
  have h2 : gam ^ 2 * bZ ^ 2 = gam ^ 2 - 1 := by nlinarith [gam_sq]
  have h3 : gam * gam = gam ^ 2 := by ring
  field_simp
  nlinarith [h2]

/-- `BoostToCM` of the summed reference system is `(0, 0, -bZ)`. -/
lemma boostToCM_com : boostToCM (vadd em ep) = ⟨0, 0, -bZ⟩ := by
  rw [boostToCM, vadd, em, ep, bZ]
  norm_num

lemma beta2_com : beta2 ⟨0, 0, -bZ⟩ = bZ ^ 2 := by
  rw [beta2]
  ring

lemma gammaOf_com : gammaOf ⟨0, 0, -bZ⟩ = gam := by
  rw [gammaOf, beta2_com, gam]

/-- The ROOT boost matrix of `(0, 0, -bZ)` in closed form. -/
lemma mkBoost_com :
    mkBoost ⟨0, 0, -bZ⟩ = BoostM.mk 1 0 0 0 1 0 0 gam (gam * -bZ) gam := by
  have hlt : ¬ 1 ≤ beta2 ⟨0, 0, -bZ⟩ := by
    rw [beta2_com]
    push_neg
    exact bZ_sq_lt_one
  have hbg : bgammaOf ⟨0, 0, -bZ⟩ = gam * gam / (1 + gam) := by
    rw [bgammaOf, gammaOf_com]
  have hzz : gam * gam / (1 + gam) * -bZ * -bZ + 1 = gam := by
    calc gam * gam / (1 + gam) * -bZ * -bZ + 1
        = gam * gam / (1 + gam) * bZ ^ 2 + 1 := by ring
      _ = gam := bgamma_identity
  rw [mkBoost, if_neg hlt]
  simp only [hbg, gammaOf_com, BoostM.mk.injEq]
  refine ⟨by ring, by ring, by ring, by ring, by ring, by ring, by ring, hzz,
    trivial, trivial⟩

/-- The cached transform in closed form: a pure longitudinal boost with
velocity `+bZ`. -/
lemma computeBoost_eq :
    computeBoost = BoostM.mk 1 0 0 0 1 0 0 gam (gam * bZ) gam := by
  rw [computeBoost, boostToCM_com, mkBoost_com, inverseB]
  simp only [BoostM.mk.injEq]
  refine ⟨trivial, trivial, trivial, by ring, trivial, trivial, by ring,
    trivial, by ring, trivial⟩

/-- `getBoosted` in closed form. -/
lemma getBoosted_eq (lv : LV) :
    getBoosted lv =
      LV.mk lv.px lv.py (gam * lv.pz + gam * bZ * lv.e)
        (gam * bZ * lv.pz + gam * lv.e) := by
  rw [getBoosted, computeBoost_eq, applyB]
  simp only [LV.mk.injEq]
  refine ⟨by ring, by ring, by ring, by ring⟩

/-- Directory part and filename part reassemble the original path. -/
lemma removeFilename_append_filenameOf (l : List Char) :
    removeFilename l ++ filenameOf l = l := by
  rw [removeFilename, filenameOf, ← List.reverse_append,
    List.takeWhile_append_dropWhile, List.reverse_reverse]

/-- Stem and extension reassemble the filename. -/
lemma stemOf_append_extensionOf (f : List Char) :
    stemOf f ++ extensionOf f = f := by
  rw [stemOf, extensionOf, splitExt]
  by_cases h1 : f = ['.'] ∨ f = ['.', '.']
  · rw [if_pos h1]
    simp
  · rw [if_neg h1]
    by_cases h2 : (f.reverse.dropWhile fun c => c ≠ '.').length ≤ 1
    · rw [if_pos h2]
      simp
    · rw [if_neg h2]
      have hne : (f.reverse.dropWhile fun c => c ≠ '.') ≠ [] := by
        intro hnil
        rw [hnil] at h2
        simp at h2
      have hhead :
          (f.reverse.dropWhile fun c => c ≠ '.').head hne = '.' := by
        have := List.head_dropWhile_not (fun c => decide (c ≠ '.')) f.reverse hne
        simpa using this
      have hcons := List.head_cons_tail
        (f.reverse.dropWhile fun c => c ≠ '.') hne
      rw [hhead] at hcons
      have hsplit :
          (f.reverse.takeWhile fun c => c ≠ '.') ++
            (f.reverse.dropWhile fun c => c ≠ '.') = f.reverse :=
        List.takeWhile_append_dropWhile (fun c => decide (c ≠ '.')) f.reverse
      dsimp only
      calc (f.reverse.dropWhile fun c => c ≠ '.').tail.reverse ++
            '.' :: (f.reverse.takeWhile fun c => c ≠ '.').reverse
          = ((f.reverse.takeWhile fun c => c ≠ '.') ++
              ('.' :: (f.reverse.dropWhile fun c => c ≠ '.').tail)).reverse := by
            simp
        _ = ((f.reverse.takeWhile fun c => c ≠ '.') ++
              (f.reverse.dropWhile fun c => c ≠ '.')).reverse := by
            rw [hcons]
        _ = f := by rw [hsplit, List.reverse_reverse]

/-- C1: for every input four-momentum with a well-defined mass
(`E² − |p|² ≥ 0`), the four-momentum returned by the cached boost
transform `getBoosted` has the same invariant mass `E² − |p|²` as the
input.  In this exact real-number embedding the equality is exact, which in
particular is within any floating-point tolerance (1e-9 relative). -/
theorem getBoosted_preserves_mass2 (lv : LV) (h : 0 ≤ mass2 lv) :
    mass2 (getBoosted lv) = mass2 lv := by
  rw [getBoosted_eq, mass2, mass2]
  dsimp only
  linear_combination (lv.e ^ 2 - lv.pz ^ 2) * gam_sq

/-- Witness for C1 at the concrete four-momentum `(0, 0, 0, 1)`. -/
theorem getBoosted_preserves_mass2_witness :
    0 ≤ mass2 (LV.mk 0 0 0 1) ∧
      mass2 (getBoosted (LV.mk 0 0 0 1)) = mass2 (LV.mk 0 0 0 1) :=
  ⟨by norm_num [mass2], getBoosted_preserves_mass2 (LV.mk 0 0 0 1)
    (by norm_num [mass2])⟩

/-- C2 is false on the code: applying `getBoosted` to the summed reference
four-momentum `em + ep = (0, 0, 468.7, 531.3)` does NOT yield `pz ≈ 0`.
Because the code inverts the boost-to-CM transform, the resulting `pz` is
`γ·937.4 ≥ 937.4`, far outside any tolerance around zero. -/
theorem getBoosted_com_pz_far_from_zero :
    4687 / 5 ≤ (getBoosted (vadd em ep)).pz ∧
      ¬ |(getBoosted (vadd em ep)).pz| ≤ 1 / 1000 := by
  have hpz : (vadd em ep).pz = 4687 / 10 := by
    rw [vadd, em, ep]
    norm_num
  have he : (vadd em ep).e = 5313 / 10 := by
    rw [vadd, em, ep]
    norm_num
  have hval : (getBoosted (vadd em ep)).pz = gam * (4687 / 5) := by
    rw [getBoosted_eq]
    dsimp only
    rw [hpz, he, bZ]
    ring
  have hge : 4687 / 5 ≤ (getBoosted (vadd em ep)).pz := by
    rw [hval]
    nlinarith [gam_ge_one]
  refine ⟨hge, ?_⟩
  rw [not_le, lt_abs]
  left
  linarith [hge]

/-- C2 amended: the cached transform is the inverse of the boost that
brings `S = em + ep` to its own rest frame, so it is the NON-inverted
transform `Boost(S.BoostToCM())` — the inverse of the cached one — that
maps `S` to a four-vector at rest in the longitudinal direction
(`pz = 0`, exactly, in the real-number embedding). -/
theorem noninverted_boost_com_pz_zero :
    (applyB (mkBoost (boostToCM (vadd em ep))) (vadd em ep)).pz = 0 := by
  have hpz : (vadd em ep).pz = 4687 / 10 := by
    rw [vadd, em, ep]
    norm_num
  have he : (vadd em ep).e = 5313 / 10 := by
    rw [vadd, em, ep]
    norm_num
  rw [boostToCM_com, mkBoost_com, applyB]
  dsimp only
  rw [hpz, he, bZ]
  ring

/-- C3: the cached transform used on every particle is exactly the
step-by-step construction the spec describes: build A and B, sum them,
take the boost-to-rest-frame vector of the sum, build the boost from it
and invert it; `getBoosted` applies precisely that transform. -/
theorem getBoosted_eq_specTransform (lv : LV) :
    getBoosted lv = applyB specTransform lv := rfl

/-- C4: processing an event keeps the number of particle records and, for
each record, every field other than the 3-momentum (energy, identity/type
codes, relations, vertex, charge, mass, time) unchanged; only `px`, `py`,
`pz` are overwritten with the boosted spatial components. -/
theorem processEvent_preserves_fields (ps : List MCParticle) :
    (processEvent ps).length = ps.length ∧
    ∀ i (h : i < ps.length),
      ((processEvent ps).get ⟨i, by simpa [processEvent] using h⟩).energy =
          (ps.get ⟨i, h⟩).energy ∧
      ((processEvent ps).get ⟨i, by simpa [processEvent] using h⟩).pdg =
          (ps.get ⟨i, h⟩).pdg ∧
      ((processEvent ps).get ⟨i, by simpa [processEvent] using h⟩).generatorStatus =
          (ps.get ⟨i, h⟩).generatorStatus ∧
      ((processEvent ps).get ⟨i, by simpa [processEvent] using h⟩).simulatorStatus =
          (ps.get ⟨i, h⟩).simulatorStatus ∧
      ((processEvent ps).get ⟨i, by simpa [processEvent] using h⟩).mass =
          (ps.get ⟨i, h⟩).mass ∧
      ((processEvent ps).get ⟨i, by simpa [processEvent] using h⟩).charge =
          (ps.get ⟨i, h⟩).charge ∧
      ((processEvent ps).get ⟨i, by simpa [processEvent] using h⟩).time =
          (ps.get ⟨i, h⟩).time ∧
      ((processEvent ps).get ⟨i, by simpa [processEvent] using h⟩).vertexX =
          (ps.get ⟨i, h⟩).vertexX ∧
      ((processEvent ps).get ⟨i, by simpa [processEvent] using h⟩).vertexY =
          (ps.get ⟨i, h⟩).vertexY ∧
      ((processEvent ps).get ⟨i, by simpa [processEvent] using h⟩).vertexZ =
          (ps.get ⟨i, h⟩).vertexZ ∧
      ((processEvent ps).get ⟨i, by simpa [processEvent] using h⟩).parents =
          (ps.get ⟨i, h⟩).parents ∧
      ((processEvent ps).get ⟨i, by simpa [processEvent] using h⟩).daughters =
          (ps.get ⟨i, h⟩).daughters ∧
      ((processEvent ps).get ⟨i, by simpa [processEvent] using h⟩).px =
          (getBoosted (lvOf (ps.get ⟨i, h⟩))).px ∧
      ((processEvent ps).get ⟨i, by simpa [processEvent] using h⟩).py =
          (getBoosted (lvOf (ps.get ⟨i, h⟩))).py ∧
      ((processEvent ps).get ⟨i, by simpa [processEvent] using h⟩).pz =
          (getBoosted (lvOf (ps.get ⟨i, h⟩))).pz := by
  refine ⟨by simp [processEvent], fun i h => ?_⟩
  have hg : (processEvent ps).get ⟨i, by simpa [processEvent] using h⟩ =
      boostParticle (ps.get ⟨i, h⟩) := by
    simp [processEvent]
  rw [hg]
  exact ⟨rfl, rfl, rfl, rfl, rfl, rfl, rfl, rfl, rfl, rfl, rfl, rfl, rfl,
    rfl, rfl⟩

/-- Witness for C4 on the one-particle event `[pSample]`. -/
theorem processEvent_preserves_fields_witness :
    ((processEvent [pSample]).get ⟨0, by simpa [processEvent] using
        (show 0 < [pSample].length by norm_num)⟩).energy =
      ([pSample].get ⟨0, by norm_num⟩).energy :=
  ((processEvent_preserves_fields [pSample]).2 0 (by norm_num)).1

/-- C5: for every input path with a filename, the derived output path is
the directory part followed by `stem ++ "-boosted" ++ extension`, where
directory/filename and stem/extension decompose the input exactly; the
given concrete examples hold bit-exactly. -/
theorem outputPath_decomposition :
    (∀ fname : String, filenameOf fname.data ≠ [] →
        outputPath fname =
          String.mk (removeFilename fname.data ++ stemOf (filenameOf fname.data) ++
            ("-boosted".data) ++ extensionOf (filenameOf fname.data)) ∧
        String.mk (removeFilename fname.data ++ filenameOf fname.data) = fname ∧
        stemOf (filenameOf fname.data) ++ extensionOf (filenameOf fname.data) =
          filenameOf fname.data) ∧
    outputPath "/a/b/run01.slcio" = "/a/b/run01-boosted.slcio" ∧
    outputPath "run.test.slcio" = "run.test-boosted.slcio" := by
  refine ⟨fun fname _ => ⟨rfl, ?_, stemOf_append_extensionOf _⟩, by decide, by decide⟩
  rw [removeFilename_append_filenameOf]

/-- Witness for C5 at the concrete input `"/a/b/run01.slcio"`. -/
theorem outputPath_decomposition_witness :
    outputPath "/a/b/run01.slcio" =
      String.mk (removeFilename "/a/b/run01.slcio".data ++
        stemOf (filenameOf "/a/b/run01.slcio".data) ++ ("-boosted".data) ++
        extensionOf (filenameOf "/a/b/run01.slcio".data)) :=
  (outputPath_decomposition.1 "/a/b/run01.slcio" (by decide)).1

/-- C6: the transform is deterministic and cached.  Starting from the
uninitialized static state, the first call stores `computeBoost`; a second
call on the same input finds the cache filled, returns the identical
output, leaves the cache unchanged, and the result agrees with
`getBoosted`. -/
theorem getBoostedCached_deterministic (lv : LV) :
    (getBoostedCached none lv).2 = some computeBoost ∧
    (getBoostedCached (getBoostedCached none lv).2 lv).1 =
      (getBoostedCached none lv).1 ∧
    (getBoostedCached (getBoostedCached none lv).2 lv).2 =
      (getBoostedCached none lv).2 ∧
    (getBoostedCached none lv).1 = getBoosted lv :=
  ⟨rfl, rfl, rfl, rfl⟩

/-- C7: invoked with no input path (`argc < 2`), the program prints the
usage message and exits with the non-zero code 1 before any file I/O. -/
theorem mainRun_usage_error (fs : FStore) (args : List String)
    (h : args.length < 2) :
    mainRun fs args = Except.ok ⟨1, true, []⟩ ∧ (1 : ℕ) ≠ 0 := by
  refine ⟨?_, by norm_num⟩
  rw [mainRun, if_pos h]

/-- Witness for C7 with only the program name on the command line. -/
theorem mainRun_usage_error_witness :
    mainRun fsEmpty ["boostLCIO"] = Except.ok ⟨1, true, []⟩ ∧ (1 : ℕ) ≠ 0 :=
  mainRun_usage_error fsEmpty ["boostLCIO"] (by norm_num)

/-- C8: the cached boost is purely longitudinal (both reference momenta
lie on the z axis), so `getBoosted` leaves the transverse components of
every four-momentum unchanged. -/
theorem getBoosted_preserves_transverse (lv : LV) :
    (getBoosted lv).px = lv.px ∧ (getBoosted lv).py = lv.py := by
  rw [getBoosted_eq]
  exact ⟨rfl, rfl⟩

/-- C9: for an input filename with no extension the `-boosted` marker is
still appended: `"run"` yields `"run-boosted"`. -/
theorem outputPath_no_extension : outputPath "run" = "run-boosted" := by
  decide

lemma runFiles_all_ok (fs : FStore) (l : List String)
    (h : ∀ f ∈ l, (fs f).isSome) :
    runFiles fs l = Except.ok ((l.map (okTrace fs)).join) := by
  induction l with
  | nil => rfl
  | cons f rest ih =>
      obtain ⟨evts, hevts⟩ :=
        Option.isSome_iff_exists.mp (h f (List.mem_cons_self f rest))
      rw [runFiles, boostFileRun, hevts,
        ih fun g hg => h g (List.mem_cons_of_mem f hg)]
      simp [okTrace, hevts]

/-- C10: when every given input file opens and processes without a library
failure, the run performs the per-file traces in argument order and the
process exits with status 0. -/
theorem mainRun_all_ok (fs : FStore) (args : List String)
    (h2 : 2 ≤ args.length) (h : ∀ f ∈ args.drop 1, (fs f).isSome) :
    mainRun fs args =
      Except.ok ⟨0, false, ((args.drop 1).map (okTrace fs)).join⟩ := by
  rw [mainRun, if_neg (by omega), runFiles_all_ok fs _ h]

/-- Witness for C10: one readable (empty) input file. -/
theorem mainRun_all_ok_witness :
    mainRun fsEmpty ["boostLCIO", "run.slcio"] =
      Except.ok ⟨0, false,
        (((["boostLCIO", "run.slcio"] : List String).drop 1).map
          (okTrace fsEmpty)).join⟩ :=
  mainRun_all_ok fsEmpty ["boostLCIO", "run.slcio"] (by norm_num)
    (fun f _ => rfl)

end BoostFile
